import Mathlib

/-!
Shallow embedding of `vacancy_func.py` (HeadHunter vacancy scraping project).

The HTTP transport, HTML tree construction and CSV codec are external
collaborators of the program; they are modelled by explicit data passed to
the embedded functions (a fetched page becomes a record of the field texts
the selectors would return, a transport response becomes a status code plus
the extracted payload).  Everything the Python functions themselves compute
(pagination control flow, per-record error policy, regex classification,
string-to-list and string-to-date conversion, skill aggregation, file
naming and merge) is translated directly from the source.
-/

/-! ## Character classes and case folding

`re.IGNORECASE` matching of the ASCII/Cyrillic patterns in the source is
modelled by lower-casing the subject string first.  `ruLower` lower-cases
exactly the characters the patterns can meet: ASCII letters and the
Cyrillic letters А-Я and Ё. -/

def ruLower (c : Char) : Char :=
  if 65 ≤ c.toNat ∧ c.toNat ≤ 90 then Char.ofNat (c.toNat + 32)
  else if 0x410 ≤ c.toNat ∧ c.toNat ≤ 0x42F then Char.ofNat (c.toNat + 32)
  else if c.toNat = 0x401 then Char.ofNat 0x451
  else c

/-- Word characters for the `\b` boundary of Python's `re` (ASCII letters,
digits, underscore, and the Cyrillic letters appearing in the titles). -/
def isWordChar (c : Char) : Bool :=
  (48 ≤ c.toNat && c.toNat ≤ 57) || (65 ≤ c.toNat && c.toNat ≤ 90) ||
  (97 ≤ c.toNat && c.toNat ≤ 122) || c.toNat == 95 ||
  (0x410 ≤ c.toNat && c.toNat ≤ 0x44F) || c.toNat == 0x401 || c.toNat == 0x451

/-! ## Regex fragments used by `categorize_vacancy`

Every alternative in the source's patterns has one of three shapes, and
`re.search` truth for them reduces to the following matchers.
`seqGapGe k a b s` is `re.search(".*a.+b.*")` for `k = 1` and
`re.search(".*a.*b.*")` for `k = 0`: an occurrence of `a` followed, at
least `k` characters later, by an occurrence of `b`, where the characters
in between are matched by `.` and hence must not be newlines.
`wordTok t s` is `re.search("\btX\b")`: an occurrence of `t` delimited by
word boundaries.  Literal containment (`.*a.*`) is `litInside`. -/

/-- `re.search(".*a.*")` for a literal fragment `a`: containment of `a`
as a contiguous sublist. -/
def litInside (a s : List Char) : Bool :=
  (List.range (s.length + 1)).any fun i => a.isPrefixOf (s.drop i)

def seqGapGe (k : Nat) (a b s : List Char) : Bool :=
  (List.range (s.length + 1)).any fun i =>
    a.isPrefixOf (s.drop i) &&
    (List.range (s.length + 1)).any fun j =>
      decide (i + a.length + k ≤ j) && b.isPrefixOf (s.drop j) &&
      (((s.drop (i + a.length)).take (j - (i + a.length))).all fun ch => ch.toNat != 10)

def wordTok (t s : List Char) : Bool :=
  (List.range (s.length + 1)).any fun i =>
    t.isPrefixOf (s.drop i) &&
    (i == 0 || !isWordChar (s.getD (i - 1) ' ')) &&
    (i + t.length == s.length || !isWordChar (s.getD (i + t.length) ' '))

/-! ## The classifier rules

One boolean per `re.search` call of `categorize_vacancy`, in source
order; the argument is the lower-cased title. -/

/-- `(.*data.+anal.*)|(.*data.+анал.*)|(.*анал.*дан.*)|(\bda\b)` -/
def ruleDataAnalyst (t : List Char) : Bool :=
  seqGapGe 1 "data".toList "anal".toList t || seqGapGe 1 "data".toList "анал".toList t ||
  seqGapGe 0 "анал".toList "дан".toList t || wordTok "da".toList t

/-- `(.*bi.+anal.*)|(\bbi\b)|(.*bi.+анал.*)|(.*анал.*bi.*)` -/
def ruleBiAnalyst (t : List Char) : Bool :=
  seqGapGe 1 "bi".toList "anal".toList t || wordTok "bi".toList t ||
  seqGapGe 1 "bi".toList "анал".toList t || seqGapGe 0 "анал".toList "bi".toList t

/-- `(.*product.*)|(.*prod.+анал.*)|(.*анал.*прод.*)|(.*продукт.*)` -/
def ruleProductAnalyst (t : List Char) : Bool :=
  litInside "product".toList t || seqGapGe 1 "prod".toList "анал".toList t ||
  seqGapGe 0 "анал".toList "прод".toList t || litInside "продукт".toList t

/-- `(.*веб.*)|(.*web.+анал.*)|(.*анал.*web.*)|(\bweb\b)` -/
def ruleWebAnalyst (t : List Char) : Bool :=
  litInside "веб".toList t || seqGapGe 1 "web".toList "анал".toList t ||
  seqGapGe 0 "анал".toList "web".toList t || wordTok "web".toList t

/-- `(.*engin.*)|(.*инжен.*)|(\bde\b)` -/
def ruleDataEngineer (t : List Char) : Bool :=
  litInside "engin".toList t || litInside "инжен".toList t || wordTok "de".toList t

/-- `(.*data.+scien.*)|(.*scien.*)|(\bds\b)` -/
def ruleDataScientist (t : List Char) : Bool :=
  seqGapGe 1 "data".toList "scien".toList t || litInside "scien".toList t ||
  wordTok "ds".toList t

/-- The cascade of `categorize_vacancy`, on the lower-cased title. -/
def categorizeLow (t : List Char) : String :=
  if ruleDataAnalyst t then "Data Analyst"
  else if ruleBiAnalyst t then "BI Analyst"
  else if ruleProductAnalyst t then "Product Analyst"
  else if ruleWebAnalyst t then "Web Analyst"
  else if ruleDataEngineer t then "Data Engineer"
  else if ruleDataScientist t then "Data Scientist"
  else "Other"

/-- `categorize_vacancy(vacancy_name)`: ordered `re.search` cascade with
`re.IGNORECASE`, first match wins, fallback `"Other"`. -/
def categorize_vacancy (s : String) : String :=
  categorizeLow (s.toList.map ruLower)

/-! ## Listing discovery: `get_all_vacancies`

The transport is the external collaborator: each loop iteration issues one
page request, so the embedding receives the successive page responses as a
list.  A response carries the HTTP status code and the vacancy IDs that the
`bloko-link` selector plus the ID regex would extract from the page body
(HTML parsing is outside the program).  The control flow of the source's
`while True` loop: a non-200 status stops and returns the accumulated IDs,
a page with no IDs stops and returns the accumulated IDs, otherwise the
IDs are appended and the next page is fetched. -/

structure PageResponse where
  status : Nat
  ids : List String
deriving DecidableEq

def get_all_vacancies : List PageResponse → List String
  | [] => []
  | r :: rest =>
    if r.status ≠ 200 then []
    else if r.ids.isEmpty then []
    else r.ids ++ get_all_vacancies rest

/-! ## `str_to_list`

Python's `str.strip(chars)` and `str.split(", ")` are embedded directly:
`pyStrip` removes the given characters from both ends, `splitCommaSpace`
splits on the first occurrences of the two-character separator `", "`
left to right (and on the empty string yields `[""]`, exactly as
Python's `split` with an explicit separator does). -/

def pyStrip (chars : List Char) (s : List Char) : List Char :=
  ((s.dropWhile (· ∈ chars)).reverse.dropWhile (· ∈ chars)).reverse

def splitCommaSpace : List Char → List (List Char)
  | [] => [[]]
  | ',' :: ' ' :: rest => [] :: splitCommaSpace rest
  | c :: rest =>
    match splitCommaSpace rest with
    | [] => [[c]]
    | p :: ps => (c :: p) :: ps

/-- `str_to_list(string)`: `None` for a falsy (empty) string, otherwise
strip `[` and `]` from the ends, split on `", "`, and strip `'` from each
element. -/
def str_to_list (s : String) : Option (List String) :=
  if s.isEmpty then none
  else
    some ((splitCommaSpace (pyStrip ['[', ']'] s.toList)).map
      fun e => String.mk (pyStrip [Char.ofNat 39] e))

example : str_to_list "" = none := by decide
example : str_to_list "[]" = some [""] := by decide
example : str_to_list "['SQL', 'Excel']" = some ["SQL", "Excel"] := by decide

/-! ## Skill aggregation: `skills_rating`

A record of the analysed table carries the two columns the function reads,
`category` and `skills`; `skills` is an `Option` because the merge reader
replaces the empty-list marker by an absent value, and Python's `if skill:`
is false both for `None` and for an empty list (`truthySkills`).
`round(x, 3)` on the skill fraction is modelled over `Rat` with Python's
round-half-to-even; the possible `ZeroDivisionError` of
`number / total_vacancies` is the `Except.error` branch. -/

deriving instance DecidableEq for Except

structure CatRec where
  category : String
  skills : Option (List String)
deriving DecidableEq

def truthySkills : Option (List String) → Bool
  | none => false
  | some l => !l.isEmpty

/-- Python's banker's rounding of a rational to the nearest integer. -/
def roundHalfEven (q : Rat) : Int :=
  if q - (⌊q⌋ : Rat) < 1 / 2 then ⌊q⌋
  else if (1 : Rat) / 2 < q - (⌊q⌋ : Rat) then ⌊q⌋ + 1
  else if ⌊q⌋ % 2 = 0 then ⌊q⌋ else ⌊q⌋ + 1

/-- `round(q, 3)`. -/
def pyRound3 (q : Rat) : Rat := (roundHalfEven (q * 1000) : Rat) / 1000

/-- The `skills` lists of the vacancies of the given category that have a
truthy skill list (the loop body's `if skill:` branch), in table order. -/
def categorySkillLists (df : List CatRec) (specialization : String) : List (List String) :=
  (((df.filter fun r => r.category == specialization).filter
    fun r => truthySkills r.skills).map fun r => r.skills.getD [])

/-- `total_vacancies` after the loop. -/
def skillBearingTotal (df : List CatRec) (specialization : String) : Nat :=
  (categorySkillLists df specialization).length

/-- `all_skills` after the loop. -/
def allCategorySkills (df : List CatRec) (specialization : String) : List String :=
  (categorySkillLists df specialization).flatten

/-- The keys of `Counter(all_skills)` in first-occurrence order, as Python
dicts preserve insertion order. -/
def firstOccurKeys (l : List String) : List String :=
  l.foldl (fun acc s => if s ∈ acc then acc else acc ++ [s]) []

/-- `skills_rating(df, specialization)`: count the skills of the
skill-bearing vacancies of the category, sort the counter items by count
descending (Python's stable sort), and divide each count by
`total_vacancies` rounded to 3 digits; dividing by a zero
`total_vacancies` is a `ZeroDivisionError`. -/
def skills_rating (df : List CatRec) (specialization : String) :
    Except String (List (String × Rat)) :=
  let total := skillBearingTotal df specialization
  let all_skills := allCategorySkills df specialization
  let result := ((firstOccurKeys all_skills).map fun s =>
    (s, all_skills.count s)).insertionSort fun x y => y.2 ≤ x.2
  result.mapM fun p =>
    if total = 0 then Except.error "ZeroDivisionError"
    else Except.ok (p.1, pyRound3 ((p.2 : Rat) / (total : Rat)))

example : skills_rating [⟨"Data Analyst", none⟩] "Data Analyst" = .ok [] := by decide

/-! ## Detail extraction: `get_vacancy_info`

A fetched detail page is modelled by the texts its selectors produce.
A selector that finds no tag makes `get_text` return `None`
(an `Option.none` field); the fields whose further processing then raises
inside the `try` block — and so discards the whole record — are the
location (`None.split`), the employment mode (`None.split`, or an unpack
of a split that does not have exactly two parts) and the publication-date
paragraph (`None.findChild`).  The `span` child of the publication-date
paragraph may itself be missing, in which case `get_text` yields `None`
but the record survives, hence the nested option. -/

structure Soup where
  title : Option String
  company : Option String
  rating : Option String
  location : Option String
  experience : Option String
  employmentMode : Option String
  pubDateTag : Option (Option String)
  skills : List String
deriving DecidableEq

/-- One row of the `get_vacancy_info` table, columns in source order. -/
structure VacancyRow where
  id : String
  vacancy_name : Option String
  experience : Option String
  work_type : String
  busyness : String
  city : String
  company : Option String
  rating : Option String
  skills : List String
  pub_date : Option String
  url : String
deriving DecidableEq

/-- The body of the `try` block for one vacancy: `some` row on success,
`none` when a field extraction raises (the `except: continue` branch). -/
def parseVacancy (id : String) (p : Soup) : Option VacancyRow :=
  match p.location with
  | none => none
  | some loc =>
    match p.employmentMode with
    | none => none
    | some em =>
      match splitCommaSpace em.toList with
      | [w, b] =>
        match p.pubDateTag with
        | none => none
        | some pd =>
          some ⟨id, p.title, p.experience, String.mk w, String.mk b,
            String.mk ((splitCommaSpace loc.toList).headD []), p.company,
            p.rating, p.skills, pd, "https://hh.ru/vacancy/" ++ id⟩
      | _ => none

/-- One detail-page fetch: the requested ID, the transport status and the
page content. -/
structure Fetched where
  id : String
  status : Nat
  soup : Soup
deriving DecidableEq

/-- The loop of `get_vacancy_info`.  `df` is the table built so far,
`data` the list of rows accumulated since the last flush, `counter` the
number of successfully parsed vacancies.  A non-200 response flushes and
returns; a parse failure skips the vacancy; a success appends to `data`
and, when `counter % 10 == 0`, flushes `data` into `df`.  When the input
is exhausted only `df` is returned — rows still sitting in `data` are
dropped. -/
def getVacancyInfoLoop : List Fetched → List VacancyRow → List VacancyRow → Nat → List VacancyRow
  | [], df, _data, _counter => df
  | f :: rest, df, data, counter =>
    if f.status ≠ 200 then df ++ data
    else
      match parseVacancy f.id f.soup with
      | none => getVacancyInfoLoop rest df data counter
      | some row =>
        if counter % 10 = 0 then
          getVacancyInfoLoop rest (df ++ (data ++ [row])) [] (counter + 1)
        else getVacancyInfoLoop rest df (data ++ [row]) (counter + 1)

/-- `get_vacancy_info(vacancies_id)`. -/
def get_vacancy_info (fetches : List Fetched) : List VacancyRow :=
  getVacancyInfoLoop fetches [] [] 0

/-- A well-formed page used in concrete evaluations. -/
def soupOk (n : Nat) : Soup :=
  { title := some ("Vacancy " ++ Nat.repr n), company := some "Company",
    rating := some "4.5", location := some "Москва, улица Ленина",
    experience := some "1–3 года",
    employmentMode := some "Полная занятость, полный день",
    pubDateTag := some (some "15 марта 2024"), skills := ["SQL"] }

/-- The page of `soupOk` with the required location field missing. -/
def soupBad : Soup :=
  { soupOk 0 with location := none }

/-- The row `parseVacancy` extracts from `soupOk n`. -/
def rowOk (id : String) (n : Nat) : VacancyRow :=
  { id := id, vacancy_name := some ("Vacancy " ++ Nat.repr n),
    experience := some "1–3 года", work_type := "Полная занятость",
    busyness := "полный день", city := "Москва", company := some "Company",
    rating := some "4.5", skills := ["SQL"], pub_date := some "15 марта 2024",
    url := "https://hh.ru/vacancy/" ++ id }

example : parseVacancy "1" (soupOk 1) = some (rowOk "1" 1) := by decide
example : parseVacancy "3" soupBad = none := by decide
example : get_vacancy_info [⟨"1", 200, soupOk 1⟩, ⟨"2", 200, soupOk 2⟩, ⟨"3", 200, soupBad⟩]
    = [rowOk "1" 1] := by decide

/-! ## Persistence: `get_and_save_data` and `download_data`

The CSV codec (`DataFrame.to_csv` / `pd.read_csv`) is an external
collaborator: the spec places CSV read/write outside the core, so a file
is modelled as the stored table together with the synthetic index column
that `to_csv` adds and `download_data` drops again.  `get_and_save_data`
writes one file per experience level named `{exp}_{date}`;
`download_data` selects the files whose name matches the date
(`re.search` with the literal `dd-mm-yyyy` pattern, i.e. substring
containment), drops the index, replaces the empty-skill-list marker
(the serialization of `[]`) by an absent value and concatenates, in
directory order, here the write order. -/

structure SavedFile where
  name : String
  index : List Nat
  rows : List VacancyRow
deriving DecidableEq

/-- A row as `download_data` delivers it: the skills cell is absent when
the stored row's marker was the empty list. -/
structure ReadRow where
  id : String
  vacancy_name : Option String
  experience : Option String
  work_type : String
  busyness : String
  city : String
  company : Option String
  rating : Option String
  skills : Option (List String)
  pub_date : Option String
  url : String
deriving DecidableEq

/-- `df.loc[df["skills"] == "[]", "skills"] = None` on one row. -/
def normalizeRow (r : VacancyRow) : ReadRow :=
  { id := r.id, vacancy_name := r.vacancy_name, experience := r.experience,
    work_type := r.work_type, busyness := r.busyness, city := r.city,
    company := r.company, rating := r.rating,
    skills := if r.skills.isEmpty then none else some r.skills,
    pub_date := r.pub_date, url := r.url }

/-- `get_and_save_data`: one file per experience level, named
`{exp}_{current_date}`, holding the detail table fetched for that level
(the scraping itself is `get_all_vacancies` + `get_vacancy_info`; here the
per-level tables are the function's input, the date is passed explicitly
instead of being read from the clock). -/
def get_and_save_data (tables : List (String × List VacancyRow)) (dateStr : String) :
    List SavedFile :=
  tables.map fun t => ⟨t.1 ++ "_" ++ dateStr, List.range t.2.length, t.2⟩

/-- `download_data(date)` over the files of the working directory. -/
def download_data (fs : List SavedFile) (dateStr : String) : List ReadRow :=
  ((fs.filter fun f => litInside dateStr.toList f.name.toList).map
    fun f => f.rows.map normalizeRow).flatten

example : download_data (get_and_save_data [("noExperience", [rowOk "1" 1])] "15-03-2024")
    "15-03-2024" = [normalizeRow (rowOk "1" 1)] := by decide

/-! ## Date parsing: `str_to_date`

`re.findall(r"([а-я]+)", s)` returns the maximal runs of lower-case
Cyrillic letters (`cyrRuns`); the code joins them, looks the join up in
the month dictionary (a `KeyError` — modelled by `none` — when the join
is not one of the twelve tokens), substitutes every run by the month
number (`substCyr` models `re.sub`) and hands the result to
`datetime.strptime(date, "%d %m %Y")`, embedded as `strptimeDayMonthYear`:
the day matches `3[01]|[12]\d|0[1-9]|[1-9]`, the month
`1[0-2]|0[1-9]|[1-9]`, the year exactly four digits, the format's blanks
match runs of whitespace, the whole string must be consumed, and the
resulting triple must be a valid calendar date. -/

/-- The character class `[а-я]` (which excludes `ё`). -/
def isCyr (c : Char) : Bool := 0x430 ≤ c.toNat && c.toNat ≤ 0x44F

/-- ASCII decimal digit, `\d`. -/
def isDigitCh (c : Char) : Bool := 48 ≤ c.toNat && c.toNat ≤ 57

/-- Python's `\s` class (space, tab, newline, return, vertical tab, form feed). -/
def isPySpace (c : Char) : Bool :=
  c.toNat == 32 || c.toNat == 9 || c.toNat == 10 || c.toNat == 13 ||
  c.toNat == 11 || c.toNat == 12

/-- Helper of `cyrRuns`: scan the characters, `cur` holding the reversed
`[а-я]` run in progress. -/
def cyrRunsAux : List Char → List Char → List (List Char)
  | [], cur => if cur.isEmpty then [] else [cur.reverse]
  | c :: rest, cur =>
    if isCyr c then cyrRunsAux rest (c :: cur)
    else if cur.isEmpty then cyrRunsAux rest []
    else cur.reverse :: cyrRunsAux rest []

/-- `re.findall(r"([а-я]+)", s)`: the maximal runs of `[а-я]` characters. -/
def cyrRuns (s : List Char) : List (List Char) := cyrRunsAux s []

/-- Helper of `substCyr`: `inRun` records whether the previous character
belonged to a `[а-я]` run (whose replacement has already been emitted). -/
def substCyrAux (repl : List Char) : List Char → Bool → List Char
  | [], _ => []
  | c :: rest, inRun =>
    if isCyr c then
      if inRun then substCyrAux repl rest true
      else repl ++ substCyrAux repl rest true
    else c :: substCyrAux repl rest false

/-- `re.sub(r"([а-я]+)", repl, s)`: replace every maximal `[а-я]` run. -/
def substCyr (repl : List Char) (s : List Char) : List Char :=
  substCyrAux repl s false

/-- The `months` dictionary: token → month number as written (`"1"`…`"12"`),
`none` for a `KeyError`. -/
def monthNum (s : List Char) : Option (List Char) :=
  if s = "января".toList then some "1".toList
  else if s = "февраля".toList then some "2".toList
  else if s = "марта".toList then some "3".toList
  else if s = "апреля".toList then some "4".toList
  else if s = "мая".toList then some "5".toList
  else if s = "июня".toList then some "6".toList
  else if s = "июля".toList then some "7".toList
  else if s = "августа".toList then some "8".toList
  else if s = "сентября".toList then some "9".toList
  else if s = "октября".toList then some "10".toList
  else if s = "ноября".toList then some "11".toList
  else if s = "декабря".toList then some "12".toList
  else none

/-- `%d`, the regex `3[01]|[12]\d|0[1-9]|[1-9]`, alternatives in order. -/
def parseDay : List Char → Option (Nat × List Char)
  | [] => none
  | [c1] => if '1' ≤ c1 && c1 ≤ '9' then some (c1.toNat - 48, []) else none
  | c1 :: c2 :: rest =>
    if c1 = '3' && (c2 = '0' || c2 = '1') then some (30 + (c2.toNat - 48), rest)
    else if (c1 = '1' || c1 = '2') && isDigitCh c2 then
      some ((c1.toNat - 48) * 10 + (c2.toNat - 48), rest)
    else if c1 = '0' && ('1' ≤ c2 && c2 ≤ '9') then some (c2.toNat - 48, rest)
    else if '1' ≤ c1 && c1 ≤ '9' then some (c1.toNat - 48, c2 :: rest)
    else none

/-- `%m`, the regex `1[0-2]|0[1-9]|[1-9]`, alternatives in order. -/
def parseMonth : List Char → Option (Nat × List Char)
  | [] => none
  | [c1] => if '1' ≤ c1 && c1 ≤ '9' then some (c1.toNat - 48, []) else none
  | c1 :: c2 :: rest =>
    if c1 = '1' && (c2 = '0' || c2 = '1' || c2 = '2') then
      some (10 + (c2.toNat - 48), rest)
    else if c1 = '0' && ('1' ≤ c2 && c2 ≤ '9') then some (c2.toNat - 48, rest)
    else if '1' ≤ c1 && c1 ≤ '9' then some (c1.toNat - 48, c2 :: rest)
    else none

/-- A blank of the format string, compiled by `strptime` to `\s+`. -/
def parseBlanks : List Char → Option (List Char)
  | [] => none
  | c :: rest => if isPySpace c then some (rest.dropWhile isPySpace) else none

/-- `%Y`, exactly four digits. -/
def parseYear : List Char → Option (Nat × List Char)
  | a :: b :: c :: d :: rest =>
    if isDigitCh a && isDigitCh b && isDigitCh c && isDigitCh d then
      some ((a.toNat - 48) * 1000 + (b.toNat - 48) * 100 +
        (c.toNat - 48) * 10 + (d.toNat - 48), rest)
    else none
  | _ => none

structure CalDate where
  year : Nat
  month : Nat
  day : Nat
deriving DecidableEq

def isLeapYear (y : Nat) : Bool :=
  (y % 4 == 0 && y % 100 != 0) || y % 400 == 0

/-- Days in a month, as `datetime.date` validates them. -/
def daysInMonth (m y : Nat) : Nat :=
  if m = 2 then (if isLeapYear y then 29 else 28)
  else if m = 4 ∨ m = 6 ∨ m = 9 ∨ m = 11 then 30
  else 31

/-- `datetime.strptime(s, "%d %m %Y").date()`: match the compiled regex
against the whole string and build a validated date. -/
def strptimeDayMonthYear (cs : List Char) : Option CalDate :=
  match parseDay cs with
  | none => none
  | some (d, r1) =>
    match parseBlanks r1 with
    | none => none
    | some r2 =>
      match parseMonth r2 with
      | none => none
      | some (m, r3) =>
        match parseBlanks r3 with
        | none => none
        | some r4 =>
          match parseYear r4 with
          | none => none
          | some (y, r5) =>
            if r5.isEmpty then
              if 1 ≤ y ∧ d ≤ daysInMonth m y then some ⟨y, m, d⟩ else none
            else none

/-- `str_to_date(str)`: find the Cyrillic runs, join them, look the join
up in the month dictionary, substitute the runs by the month number and
parse with `strptime`.  `none` is the raised `KeyError`/`ValueError`. -/
def str_to_date (s : String) : Option CalDate :=
  match monthNum (cyrRuns s.toList).flatten with
  | none => none
  | some repl => strptimeDayMonthYear (substCyr repl s.toList)

example : str_to_date "15 марта 2024" = some ⟨2024, 3, 15⟩ := by decide
example : str_to_date "15-03-2024" = none := by decide
example : str_to_date "31 февраля 2024" = none := by decide
example : str_to_date "29 февраля 2024" = some ⟨2024, 2, 29⟩ := by decide
example : str_to_date "29 февраля 2023" = none := by decide
example : str_to_date "5 мая 1999" = some ⟨1999, 5, 5⟩ := by decide
example : str_to_date "1ма 5 202я" = some ⟨2025, 5, 15⟩ := by decide

/-! ## Claim theorems -/

/-- C1: the claim says `get_vacancy_info` returns one row per vacancy whose
fields all extract successfully, so N-1 rows for N IDs with one malformed
page.  The code violates this: rows are buffered in `data` and flushed
into `df` only when `counter % 10 == 0`, and the final `return df` drops
the rows still waiting in the buffer.  For three IDs whose fetches all
return 200, pages 1 and 2 well-formed and page 3 missing the required
location field, the function returns one single row (the first, flushed at
`counter == 0`) instead of the two the claim demands. -/
theorem get_vacancy_info_flush_drop :
    get_vacancy_info
      [⟨"1", 200, soupOk 1⟩, ⟨"2", 200, soupOk 2⟩, ⟨"3", 200, soupBad⟩]
      = [rowOk "1" 1] ∧
    (get_vacancy_info
      [⟨"1", 200, soupOk 1⟩, ⟨"2", 200, soupOk 2⟩, ⟨"3", 200, soupBad⟩]).length ≠ 3 - 1 := by
  decide

/-- C2 counterexample: the title `"Data Engineer/Analyst"` matches the
engineer rule and the data-analyst rule, but `categorize_vacancy` returns
`"Data Analyst"`, not `"Data Engineer"` — the data-analyst pattern
`.*data.+anal.*` is tested first and already matches. -/
theorem categorize_engineer_precedence_cex :
    ruleDataEngineer ("Data Engineer/Analyst".toList.map ruLower) = true ∧
    ruleDataAnalyst ("Data Engineer/Analyst".toList.map ruLower) = true ∧
    categorize_vacancy "Data Engineer/Analyst" = "Data Analyst" := by
  decide

theorem bool_not_true_of_false {b : Bool} (h : b = false) : ¬ b = true := by
  simp [h]

/-- C2 amended: for every title matching an engineer pattern, the
classification is `"Data Engineer"` if and only if none of the four
earlier rules (data-analyst, BI-analyst, product-analyst, web-analyst)
matches; a title additionally matched by an earlier rule always gets the
earliest matching rule's label instead (first match wins), so a title
matching both an engineer pattern and an earlier analyst pattern gets the
earlier analyst label. -/
theorem categorize_engineer_when_no_earlier_rule (s : String)
    (h5 : ruleDataEngineer (s.toList.map ruLower) = true) :
    (categorize_vacancy s = "Data Engineer" ↔
      ruleDataAnalyst (s.toList.map ruLower) = false ∧
      ruleBiAnalyst (s.toList.map ruLower) = false ∧
      ruleProductAnalyst (s.toList.map ruLower) = false ∧
      ruleWebAnalyst (s.toList.map ruLower) = false) ∧
    (ruleDataAnalyst (s.toList.map ruLower) = true →
      categorize_vacancy s = "Data Analyst") ∧
    (ruleDataAnalyst (s.toList.map ruLower) = false →
      ruleBiAnalyst (s.toList.map ruLower) = true →
      categorize_vacancy s = "BI Analyst") ∧
    (ruleDataAnalyst (s.toList.map ruLower) = false →
      ruleBiAnalyst (s.toList.map ruLower) = false →
      ruleProductAnalyst (s.toList.map ruLower) = true →
      categorize_vacancy s = "Product Analyst") ∧
    (ruleDataAnalyst (s.toList.map ruLower) = false →
      ruleBiAnalyst (s.toList.map ruLower) = false →
      ruleProductAnalyst (s.toList.map ruLower) = false →
      ruleWebAnalyst (s.toList.map ruLower) = true →
      categorize_vacancy s = "Web Analyst") := by
  have hcv : categorize_vacancy s = categorizeLow (s.toList.map ruLower) := rfl
  have hda : ruleDataAnalyst (s.toList.map ruLower) = true →
      categorize_vacancy s = "Data Analyst" := by
    intro ha
    rw [hcv]
    unfold categorizeLow
    rw [if_pos ha]
  have hbi : ruleDataAnalyst (s.toList.map ruLower) = false →
      ruleBiAnalyst (s.toList.map ruLower) = true →
      categorize_vacancy s = "BI Analyst" := by
    intro ha hb
    rw [hcv]
    unfold categorizeLow
    rw [if_neg (bool_not_true_of_false ha), if_pos hb]
  have hpr : ruleDataAnalyst (s.toList.map ruLower) = false →
      ruleBiAnalyst (s.toList.map ruLower) = false →
      ruleProductAnalyst (s.toList.map ruLower) = true →
      categorize_vacancy s = "Product Analyst" := by
    intro ha hb hc
    rw [hcv]
    unfold categorizeLow
    rw [if_neg (bool_not_true_of_false ha), if_neg (bool_not_true_of_false hb), if_pos hc]
  have hwe : ruleDataAnalyst (s.toList.map ruLower) = false →
      ruleBiAnalyst (s.toList.map ruLower) = false →
      ruleProductAnalyst (s.toList.map ruLower) = false →
      ruleWebAnalyst (s.toList.map ruLower) = true →
      categorize_vacancy s = "Web Analyst" := by
    intro ha hb hc hd
    rw [hcv]
    unfold categorizeLow
    rw [if_neg (bool_not_true_of_false ha), if_neg (bool_not_true_of_false hb),
      if_neg (bool_not_true_of_false hc), if_pos hd]
  refine ⟨⟨fun heq => ?_, fun hall => ?_⟩, hda, hbi, hpr, hwe⟩
  · by_cases ha : ruleDataAnalyst (s.toList.map ruLower) = true
    · exact absurd (((hda ha).symm.trans heq)) (by decide)
    · have ha' : ruleDataAnalyst (s.toList.map ruLower) = false := by simpa using ha
      by_cases hb : ruleBiAnalyst (s.toList.map ruLower) = true
      · exact absurd (((hbi ha' hb).symm.trans heq)) (by decide)
      · have hb' : ruleBiAnalyst (s.toList.map ruLower) = false := by simpa using hb
        by_cases hc : ruleProductAnalyst (s.toList.map ruLower) = true
        · exact absurd (((hpr ha' hb' hc).symm.trans heq)) (by decide)
        · have hc' : ruleProductAnalyst (s.toList.map ruLower) = false := by simpa using hc
          by_cases hd : ruleWebAnalyst (s.toList.map ruLower) = true
          · exact absurd (((hwe ha' hb' hc' hd).symm.trans heq)) (by decide)
          · exact ⟨ha', hb', hc', by simpa using hd⟩
  · obtain ⟨ha, hb, hc, hd⟩ := hall
    rw [hcv]
    unfold categorizeLow
    rw [if_neg (bool_not_true_of_false ha), if_neg (bool_not_true_of_false hb),
      if_neg (bool_not_true_of_false hc), if_neg (bool_not_true_of_false hd), if_pos h5]

/-- C2 witness: `"Backend Engineer"` matches the engineer rule and none of
the earlier ones, so it classifies as `"Data Engineer"`; the claim's own
example `"Data Engineer/Analyst"` also matches the data-analyst rule and
gets the earlier label `"Data Analyst"`. -/
theorem categorize_engineer_when_no_earlier_rule_witness :
    categorize_vacancy "Backend Engineer" = "Data Engineer" ∧
    categorize_vacancy "Data Engineer/Analyst" = "Data Analyst" :=
  ⟨((categorize_engineer_when_no_earlier_rule "Backend Engineer" (by decide)).1).mpr
      ⟨by decide, by decide, by decide, by decide⟩,
   (categorize_engineer_when_no_earlier_rule "Data Engineer/Analyst"
      (by decide)).2.1 (by decide)⟩

/-- Two pages' worth of distinct vacancy IDs (15 per page). -/
def pageIds (k : Nat) : List String :=
  (List.range 15).map fun n => Nat.repr (15 * k + n)

/-- C3: `get_all_vacancies` returns exactly the concatenation of the IDs
of the pages preceding the first page that has a non-200 status or no IDs;
a transport failure yields this partial result, never an exception (the
embedded function is total).  Concretely, two pages of 15 IDs followed by
an empty page give 30 IDs, and a non-200 on the second page gives exactly
the first page's IDs. -/
theorem get_all_vacancies_stops_at_first_bad_page :
    (∀ good bad rest, (∀ r ∈ good, r.status = 200 ∧ r.ids ≠ []) →
      (bad.status ≠ 200 ∨ bad.ids = []) →
      get_all_vacancies (good ++ bad :: rest) = (good.map PageResponse.ids).flatten) ∧
    (get_all_vacancies [⟨200, pageIds 0⟩, ⟨200, pageIds 1⟩, ⟨200, []⟩]).length = 30 ∧
    get_all_vacancies [⟨200, pageIds 0⟩, ⟨404, pageIds 1⟩] = pageIds 0 := by
  refine ⟨fun good => ?_, by decide, by decide⟩
  induction good with
  | nil =>
    intro bad rest _ hbad
    rcases hbad with h | h <;> simp [get_all_vacancies, h]
  | cons r good ih =>
    intro bad rest hgood hbad
    obtain ⟨h200, hne⟩ := hgood r (by simp)
    have hrec := ih bad rest (fun x hx => hgood x (by simp [hx])) hbad
    simp [get_all_vacancies, h200, List.isEmpty_iff, hne, hrec]

/-- C3 witness: one good page, then a 500. -/
theorem get_all_vacancies_stops_at_first_bad_page_witness :
    get_all_vacancies [⟨200, ["7"]⟩, ⟨500, ["8"]⟩] = ["7"] := by
  have h := get_all_vacancies_stops_at_first_bad_page.1
    [⟨200, ["7"]⟩] ⟨500, ["8"]⟩ [] (by decide) (by decide)
  simpa using h

/-- C4 counterexample: the claim says `skills_rating` fails with a
zero-denominator error when no vacancy of the category has a non-empty
skill list.  In the code the division sits inside a comprehension over the
counter items, and with no skill-bearing vacancy that list is empty, so no
division is ever evaluated: the call returns the empty list normally. -/
theorem skills_rating_zero_denominator_cex :
    skills_rating [⟨"Data Analyst", none⟩] "Data Analyst" = .ok [] ∧
    ∀ e, skills_rating [⟨"Data Analyst", none⟩] "Data Analyst" ≠ .error e := by
  refine ⟨by decide, fun e h => ?_⟩
  rw [show skills_rating [⟨"Data Analyst", none⟩] "Data Analyst" = .ok [] from by decide] at h
  exact Except.noConfusion h

/-- C4 amended: when no vacancy of the category has a truthy skill list,
`skills_rating` returns the empty list as a normal result; the
zero-denominator division is never reached. -/
theorem skills_rating_no_bearing_returns_empty (df : List CatRec) (spec : String)
    (h : ∀ r ∈ df, r.category = spec → truthySkills r.skills = false) :
    skills_rating df spec = .ok [] := by
  have hlists : categorySkillLists df spec = [] := by
    unfold categorySkillLists
    rw [List.filter_eq_nil_iff.mpr, List.map_nil]
    intro r hr
    obtain ⟨hmem, hcat⟩ := List.mem_filter.mp hr
    simp only [beq_iff_eq] at hcat
    simp [h r hmem hcat]
  unfold skills_rating allCategorySkills skillBearingTotal
  rw [hlists]
  rfl

/-- C4 witness: a category vacancy with an empty skill list and a
foreign-category vacancy with skills. -/
theorem skills_rating_no_bearing_returns_empty_witness :
    skills_rating [⟨"Data Analyst", some []⟩, ⟨"Other", some ["Go"]⟩] "Data Analyst"
      = .ok [] :=
  skills_rating_no_bearing_returns_empty
    [⟨"Data Analyst", some []⟩, ⟨"Other", some ["Go"]⟩] "Data Analyst" (by decide)

/-- C6 counterexample: `"Product Manager"` contains `"product"` and no
analyst term (`"anal"`/`"анал"`), yet `categorize_vacancy` labels it
`"Product Analyst"` — the first alternative of the product rule is
`.*product.*`, which demands no analyst term. -/
theorem categorize_product_without_analyst_cex :
    litInside "anal".toList ("Product Manager".toList.map ruLower) = false ∧
    litInside "анал".toList ("Product Manager".toList.map ruLower) = false ∧
    categorize_vacancy "Product Manager" = "Product Analyst" := by
  decide

/-- C6 amended: for a title matched by neither the data-analyst nor the
BI-analyst rule, `categorize_vacancy` returns `"Product Analyst"` exactly
when the product rule matches — i.e. when the title contains `"product"`
(no analyst term required), or `"prod"` later followed by `"анал"`, or
`"анал"` followed by `"прод"`, or contains `"продукт"` (again with no
analyst term required); in particular containing `"product"` alone
suffices. -/
theorem categorize_product_iff_product_rule (s : String)
    (h1 : ruleDataAnalyst (s.toList.map ruLower) = false)
    (h2 : ruleBiAnalyst (s.toList.map ruLower) = false) :
    (categorize_vacancy s = "Product Analyst" ↔
      (litInside "product".toList (s.toList.map ruLower) ||
       seqGapGe 1 "prod".toList "анал".toList (s.toList.map ruLower) ||
       seqGapGe 0 "анал".toList "прод".toList (s.toList.map ruLower) ||
       litInside "продукт".toList (s.toList.map ruLower)) = true) ∧
    (litInside "product".toList (s.toList.map ruLower) = true →
      categorize_vacancy s = "Product Analyst") := by
  have hrule : (litInside "product".toList (s.toList.map ruLower) ||
       seqGapGe 1 "prod".toList "анал".toList (s.toList.map ruLower) ||
       seqGapGe 0 "анал".toList "прод".toList (s.toList.map ruLower) ||
       litInside "продукт".toList (s.toList.map ruLower))
      = ruleProductAnalyst (s.toList.map ruLower) := rfl
  have hiff : ∀ t : List Char, ruleDataAnalyst t = false → ruleBiAnalyst t = false →
      (categorizeLow t = "Product Analyst" ↔ ruleProductAnalyst t = true) := by
    intro t ht1 ht2
    unfold categorizeLow
    rw [if_neg (by simp [ht1] : ¬ ruleDataAnalyst t = true),
      if_neg (by simp [ht2] : ¬ ruleBiAnalyst t = true)]
    by_cases h3 : ruleProductAnalyst t = true
    · rw [if_pos h3]
      simp [h3]
    · rw [if_neg h3]
      constructor
      · intro hc
        exact absurd hc (by split_ifs <;> decide)
      · intro hc
        exact absurd hc h3
  refine ⟨by rw [hrule]; exact hiff (s.toList.map ruLower) h1 h2,
    fun hp => (hiff (s.toList.map ruLower) h1 h2).mpr ?_⟩
  unfold ruleProductAnalyst
  rw [hp]
  rfl

/-- C6 witness: `"Product Manager"` is matched by neither earlier rule and
contains `"product"`, so it classifies as `"Product Analyst"`. -/
theorem categorize_product_iff_product_rule_witness :
    categorize_vacancy "Product Manager" = "Product Analyst" :=
  (categorize_product_iff_product_rule "Product Manager"
    (by decide) (by decide)).2 (by decide)

/-- C7: a title whose lower-cased text is exactly the token `da` (any
letter case of `"DA"`) classifies as `"Data Analyst"`, and likewise
`bi` → `"BI Analyst"`, `de` → `"Data Engineer"`, `ds` → `"Data Scientist"`. -/
theorem categorize_exact_tokens (s : String) :
    (s.toList.map ruLower = "da".toList → categorize_vacancy s = "Data Analyst") ∧
    (s.toList.map ruLower = "bi".toList → categorize_vacancy s = "BI Analyst") ∧
    (s.toList.map ruLower = "de".toList → categorize_vacancy s = "Data Engineer") ∧
    (s.toList.map ruLower = "ds".toList → categorize_vacancy s = "Data Scientist") := by
  refine ⟨fun h => ?_, fun h => ?_, fun h => ?_, fun h => ?_⟩ <;>
    (unfold categorize_vacancy; rw [h]; decide)

/-- C7 witness: the four upper-case tokens themselves. -/
theorem categorize_exact_tokens_witness :
    categorize_vacancy "DA" = "Data Analyst" ∧
    categorize_vacancy "BI" = "BI Analyst" ∧
    categorize_vacancy "DE" = "Data Engineer" ∧
    categorize_vacancy "DS" = "Data Scientist" :=
  ⟨(categorize_exact_tokens "DA").1 (by decide),
   (categorize_exact_tokens "BI").2.1 (by decide),
   (categorize_exact_tokens "DE").2.2.1 (by decide),
   (categorize_exact_tokens "DS").2.2.2 (by decide)⟩

theorem splitCommaSpace_ne_nil (l : List Char) : splitCommaSpace l ≠ [] := by
  induction l with
  | nil => simp [splitCommaSpace]
  | cons c rest ih =>
    match c, rest with
    | ',', ' ' :: rest' => simp [splitCommaSpace]
    | c, rest =>
      unfold splitCommaSpace
      split
      · simp
      · simp
      · split
        · simp
        · simp

/-- C10: `str_to_list` returns `None` on the empty (falsy) string, returns
the one-element list containing the empty string on the literal `"[]"`,
and never returns an empty list, since Python's `split` with an explicit
separator always yields at least one part. -/
theorem str_to_list_never_empty :
    str_to_list "" = none ∧
    str_to_list "[]" = some [""] ∧
    ∀ s l, str_to_list s = some l → l ≠ [] := by
  refine ⟨by decide, by decide, fun s l h => ?_⟩
  unfold str_to_list at h
  split at h
  · exact Option.noConfusion h
  · have := Option.some.inj h
    intro hnil
    rw [hnil] at this
    exact splitCommaSpace_ne_nil _ (List.map_eq_nil_iff.mp this)

/-- C10 witness: a singleton list survives the round through
`str_to_list` and is non-empty. -/
theorem str_to_list_never_empty_witness : ([""] : List String) ≠ [] :=
  str_to_list_never_empty.2.2 "[]" [""] str_to_list_never_empty.2.1

theorem litInside_suffix (a s : List Char) : litInside a (s ++ a) = true := by
  unfold litInside
  rw [List.any_eq_true]
  refine ⟨s.length, List.mem_range.mpr (by rw [List.length_append]; omega), ?_⟩
  rw [List.drop_left]
  rw [List.isPrefixOf_iff_prefix]

/-- C9: writing the per-experience detail tables with `get_and_save_data`
and reloading them with `download_data` for the same date returns exactly
the concatenation of the written rows, with the synthetic index column
dropped and every empty skill list normalized to an absent value — the
file names `{exp}_{date}` all contain the date, so every written file is
selected by the reader. -/
theorem download_after_save_round_trip
    (tables : List (String × List VacancyRow)) (dateStr : String) :
    download_data (get_and_save_data tables dateStr) dateStr
      = ((tables.map Prod.snd).flatten).map normalizeRow := by
  unfold download_data get_and_save_data
  have hfil : ∀ f ∈ tables.map
      (fun t => (⟨t.1 ++ "_" ++ dateStr, List.range t.2.length, t.2⟩ : SavedFile)),
      litInside dateStr.toList f.name.toList = true := by
    intro f hf
    obtain ⟨t, _, rfl⟩ := List.mem_map.mp hf
    show litInside dateStr.toList (t.1 ++ "_" ++ dateStr).toList = true
    have harr : (t.1 ++ "_" ++ dateStr).toList = (t.1 ++ "_").toList ++ dateStr.toList := rfl
    rw [harr]
    exact litInside_suffix _ _
  rw [List.filter_eq_self.mpr hfil, List.map_map, List.map_flatten, List.map_map]
  rfl

/-- C5 counterexample: a vacancy listing the same skill twice makes the
occurrence count exceed the number of skill-bearing vacancies, so the
reported fraction is 2, outside [0, 1]. -/
theorem skills_rating_duplicate_skill_cex :
    skills_rating [⟨"Data Analyst", some ["SQL", "SQL"]⟩] "Data Analyst"
      = .ok [("SQL", 2)] ∧ ¬ ((2 : Rat) ≤ 1) := by
  constructor
  · have h : pyRound3 (((2 : Nat) : Rat) / ((1 : Nat) : Rat)) = 2 := by
      norm_num [pyRound3, roundHalfEven]
    have base : skills_rating [⟨"Data Analyst", some ["SQL", "SQL"]⟩] "Data Analyst"
        = .ok [("SQL", pyRound3 (((2 : Nat) : Rat) / ((1 : Nat) : Rat)))] := rfl
    rw [base, h]
  · norm_num

theorem mapM_loop_ok {α β : Type} (g : α → β) :
    ∀ (l : List α) (acc : List β),
      List.mapM.loop (fun a => (Except.ok (g a) : Except String β)) l acc
        = Except.ok (acc.reverse ++ l.map g) := by
  intro l
  induction l with
  | nil =>
    intro acc
    simp [List.mapM.loop]
    rfl
  | cons a l ih =>
    intro acc
    have hstep : List.mapM.loop (fun a => (Except.ok (g a) : Except String β)) (a :: l) acc
        = List.mapM.loop (fun a => (Except.ok (g a) : Except String β)) l (g a :: acc) := rfl
    rw [hstep, ih (g a :: acc)]
    simp

theorem mapM_ok {α β : Type} (g : α → β) (l : List α) :
    (l.mapM fun a => (Except.ok (g a) : Except String β)) = Except.ok (l.map g) := by
  rw [List.mapM]
  simpa using mapM_loop_ok g l []

theorem roundHalfEven_bounds (q : Rat) (h0 : 0 ≤ q) (h1 : q ≤ 1000) :
    0 ≤ roundHalfEven q ∧ roundHalfEven q ≤ 1000 := by
  unfold roundHalfEven
  have hf0 : (0 : Int) ≤ ⌊q⌋ := Int.floor_nonneg.mpr h0
  have hfle : (⌊q⌋ : Rat) ≤ q := Int.floor_le q
  have hup : ⌊q⌋ ≤ 1000 := by
    have := Int.floor_le_floor h1
    simpa using this
  constructor
  · split_ifs <;> omega
  · split_ifs with hb1 hb2 hb3
    · exact hup
    · have hh : (⌊q⌋ : Rat) + 1 / 2 < q := by linarith
      have hlt : (⌊q⌋ : Rat) < 1000 := by linarith
      have : ⌊q⌋ < 1000 := by exact_mod_cast hlt
      omega
    · exact hup
    · have hh : (⌊q⌋ : Rat) + 1 / 2 ≤ q := by linarith
      have hlt : (⌊q⌋ : Rat) < 1000 := by linarith
      have : ⌊q⌋ < 1000 := by exact_mod_cast hlt
      omega

theorem pyRound3_bounds (q : Rat) (h0 : 0 ≤ q) (h1 : q ≤ 1) :
    0 ≤ pyRound3 q ∧ pyRound3 q ≤ 1 := by
  unfold pyRound3
  obtain ⟨hl, hr⟩ := roundHalfEven_bounds (q * 1000) (by positivity) (by linarith)
  constructor
  · apply div_nonneg _ (by norm_num)
    exact_mod_cast hl
  · rw [div_le_one (by norm_num)]
    exact_mod_cast hr

theorem skills_rating_eval (df : List CatRec) (spec : String)
    (h : skillBearingTotal df spec ≠ 0) :
    skills_rating df spec = .ok (((((firstOccurKeys (allCategorySkills df spec)).map
        fun s => (s, (allCategorySkills df spec).count s)).insertionSort
          fun x y => y.2 ≤ x.2).map
            fun p => (p.1, pyRound3 ((p.2 : Rat) / (skillBearingTotal df spec : Rat))))) := by
  simp only [skills_rating]
  rw [show (fun p : String × Nat =>
      if skillBearingTotal df spec = 0 then
        (Except.error "ZeroDivisionError" : Except String (String × Rat))
      else Except.ok (p.1, pyRound3 ((p.2 : Rat) / (skillBearingTotal df spec : Rat))))
    = fun p : String × Nat =>
        Except.ok (p.1, pyRound3 ((p.2 : Rat) / (skillBearingTotal df spec : Rat)))
    from funext fun p => if_neg h]
  rw [mapM_ok]

theorem pyRound3_nonneg (q : Rat) (h0 : 0 ≤ q) : 0 ≤ pyRound3 q := by
  unfold pyRound3
  apply div_nonneg _ (by norm_num)
  have hf0 : (0 : Int) ≤ ⌊q * 1000⌋ := Int.floor_nonneg.mpr (by positivity)
  have hrhe : 0 ≤ roundHalfEven (q * 1000) := by
    unfold roundHalfEven
    split_ifs <;> omega
  exact_mod_cast hrhe

/-- C5 amended: for every record table, every reported pair of
`skills_rating` carries the fraction `round(count / total, 3)` where
`count` is the skill's number of occurrences over the category's
skill-bearing vacancies and `total` the number of those vacancies —
vacancies with no listed skills are in neither — and every fraction is
nonnegative; the fraction moreover lies in [0, 1] provided no vacancy
lists the same skill twice (with a duplicated skill tag the count can
exceed the vacancy total and the fraction exceeds 1, which is why the
claim's unconditional [0, 1] bound fails). -/
theorem skills_rating_fraction_spec (df : List CatRec) (spec : String)
    (out : List (String × Rat))
    (hout : skills_rating df spec = .ok out) :
    ∀ p ∈ out,
      p.2 = pyRound3 (((allCategorySkills df spec).count p.1 : Rat) /
        (skillBearingTotal df spec : Rat)) ∧
      0 ≤ p.2 ∧
      ((∀ r ∈ df, (r.skills.getD []).Nodup) → p.2 ≤ 1) := by
  intro p hp
  by_cases htot : skillBearingTotal df spec = 0
  · exfalso
    have hlists : categorySkillLists df spec = [] := List.length_eq_zero.mp htot
    have hok : skills_rating df spec = .ok [] := by
      unfold skills_rating allCategorySkills skillBearingTotal
      rw [hlists]
      rfl
    rw [hok] at hout
    obtain rfl : ([] : List (String × Rat)) = out := Except.ok.inj hout
    exact List.not_mem_nil p hp
  · have htpos : 0 < skillBearingTotal df spec := Nat.pos_of_ne_zero htot
    rw [skills_rating_eval df spec htot] at hout
    obtain rfl := Except.ok.inj hout
    obtain ⟨q, hq, rfl⟩ := List.mem_map.mp hp
    have hqc : q ∈ (firstOccurKeys (allCategorySkills df spec)).map
        fun s => (s, (allCategorySkills df spec).count s) :=
      (List.perm_insertionSort _ _).mem_iff.mp hq
    obtain ⟨sk, _, rfl⟩ := List.mem_map.mp hqc
    have hzero : (0 : Rat) ≤ ((allCategorySkills df spec).count sk : Rat) /
        (skillBearingTotal df spec : Rat) := by positivity
    refine ⟨rfl, pyRound3_nonneg _ hzero, fun hnodup => ?_⟩
    have hcount : (allCategorySkills df spec).count sk ≤ skillBearingTotal df spec := by
      unfold allCategorySkills
      rw [List.count_flatten]
      have hbound : ∀ x ∈ (categorySkillLists df spec).map (List.count sk), x ≤ 1 := by
        intro x hx
        obtain ⟨l, hl, rfl⟩ := List.mem_map.mp hx
        unfold categorySkillLists at hl
        obtain ⟨r, hr, rfl⟩ := List.mem_map.mp hl
        have hrdf : r ∈ df := (List.mem_filter.mp (List.mem_filter.mp hr).1).1
        exact List.nodup_iff_count_le_one.mp (hnodup r hrdf) sk
      have hsum := List.sum_le_card_nsmul _ 1 hbound
      rw [List.length_map, smul_eq_mul, mul_one] at hsum
      exact hsum
    have hone : ((allCategorySkills df spec).count sk : Rat) /
        (skillBearingTotal df spec : Rat) ≤ 1 := by
      rw [div_le_one (by exact_mod_cast htpos)]
      exact_mod_cast hcount
    exact (pyRound3_bounds _ hzero hone).2

/-- C5 witness: one category vacancy listing one skill; the fraction is
`round(1/1, 3)`, which equals the formula, is nonnegative, and (the skill
lists having no duplicates) lies below 1. -/
theorem skills_rating_fraction_spec_witness :
    pyRound3 (((1 : Nat) : Rat) / ((1 : Nat) : Rat))
      = pyRound3 ((((allCategorySkills [⟨"Data Analyst", some ["SQL"]⟩]
          "Data Analyst").count "SQL" : Nat) : Rat) /
        ((skillBearingTotal [⟨"Data Analyst", some ["SQL"]⟩] "Data Analyst" : Nat) : Rat)) ∧
    (0 : Rat) ≤ pyRound3 (((1 : Nat) : Rat) / ((1 : Nat) : Rat)) ∧
    pyRound3 (((1 : Nat) : Rat) / ((1 : Nat) : Rat)) ≤ 1 := by
  have h := skills_rating_fraction_spec [⟨"Data Analyst", some ["SQL"]⟩] "Data Analyst"
    [("SQL", pyRound3 (((1 : Nat) : Rat) / ((1 : Nat) : Rat)))] rfl
    ("SQL", pyRound3 (((1 : Nat) : Rat) / ((1 : Nat) : Rat))) (by simp)
  exact ⟨h.1, h.2.1, h.2.2 (by decide)⟩

/-! ## Lemmas for `str_to_date` on well-formed inputs -/

theorem digit_not_cyr (c : Char) (h : isDigitCh c = true) : isCyr c = false := by
  simp only [isDigitCh, Bool.and_eq_true, decide_eq_true_eq] at h
  by_contra hcon
  rw [Bool.not_eq_false] at hcon
  simp only [isCyr, Bool.and_eq_true, decide_eq_true_eq] at hcon
  omega

theorem digit_not_space (c : Char) (h : isDigitCh c = true) : isPySpace c = false := by
  simp only [isDigitCh, Bool.and_eq_true, decide_eq_true_eq] at h
  by_contra hcon
  rw [Bool.not_eq_false] at hcon
  simp only [isPySpace, Bool.or_eq_true, beq_iff_eq] at hcon
  omega

theorem cyrRunsAux_nonCyr (xs : List Char) :
    ∀ ys, (∀ c ∈ xs, isCyr c = false) → cyrRunsAux (xs ++ ys) [] = cyrRunsAux ys [] := by
  induction xs with
  | nil => intro ys _; rfl
  | cons c xs ih =>
    intro ys h
    have hc : isCyr c = false := h c (by simp)
    simp [cyrRunsAux, hc, ih ys fun x hx => h x (by simp [hx])]

theorem cyrRunsAux_all_nonCyr (ys : List Char) (h : ∀ c ∈ ys, isCyr c = false) :
    cyrRunsAux ys [] = [] := by
  induction ys with
  | nil => rfl
  | cons c ys ih =>
    have hc : isCyr c = false := h c (by simp)
    simp [cyrRunsAux, hc, ih fun x hx => h x (by simp [hx])]

theorem cyrRunsAux_run (tok : List Char) :
    ∀ rest cur, (∀ c ∈ tok, isCyr c = true) →
      cyrRunsAux (tok ++ rest) cur = cyrRunsAux rest (tok.reverse ++ cur) := by
  induction tok with
  | nil => intro rest cur _; simp
  | cons c tok ih =>
    intro rest cur h
    have hc : isCyr c = true := h c (by simp)
    rw [List.cons_append]
    show (if isCyr c then cyrRunsAux (tok ++ rest) (c :: cur)
      else if List.isEmpty cur then cyrRunsAux (tok ++ rest) []
      else cur.reverse :: cyrRunsAux (tok ++ rest) []) = _
    rw [if_pos hc, ih rest (c :: cur) fun x hx => h x (by simp [hx])]
    simp [List.append_assoc]

theorem cyrRunsAux_emit (c : Char) (rest cur : List Char)
    (hc : isCyr c = false) (hcur : cur ≠ []) :
    cyrRunsAux (c :: rest) cur = cur.reverse :: cyrRunsAux rest [] := by
  have : cur.isEmpty = false := by
    cases cur
    · exact absurd rfl hcur
    · rfl
  simp [cyrRunsAux, hc, this]

theorem substCyrAux_nonCyr (repl : List Char) (xs : List Char) :
    ∀ ys, (∀ c ∈ xs, isCyr c = false) →
      substCyrAux repl (xs ++ ys) false = xs ++ substCyrAux repl ys false := by
  induction xs with
  | nil => intro ys _; rfl
  | cons c xs ih =>
    intro ys h
    have hc : isCyr c = false := h c (by simp)
    simp [substCyrAux, hc, ih ys fun x hx => h x (by simp [hx])]

theorem substCyrAux_cyr_true (repl : List Char) (tok : List Char) :
    ∀ rest, (∀ c ∈ tok, isCyr c = true) →
      substCyrAux repl (tok ++ rest) true = substCyrAux repl rest true := by
  induction tok with
  | nil => intro rest _; rfl
  | cons c tok ih =>
    intro rest h
    have hc : isCyr c = true := h c (by simp)
    simp [substCyrAux, hc, ih rest fun x hx => h x (by simp [hx])]

theorem substCyrAux_cyr_false (repl : List Char) (tok rest : List Char)
    (h : ∀ c ∈ tok, isCyr c = true) (hne : tok ≠ []) :
    substCyrAux repl (tok ++ rest) false = repl ++ substCyrAux repl rest true := by
  cases tok with
  | nil => exact absurd rfl hne
  | cons c tok =>
    have hc : isCyr c = true := h c (by simp)
    simp [substCyrAux, hc, substCyrAux_cyr_true repl tok rest fun x hx => h x (by simp [hx])]

theorem substCyrAux_all_nonCyr (repl : List Char) (ys : List Char)
    (h : ∀ c ∈ ys, isCyr c = false) : substCyrAux repl ys false = ys := by
  induction ys with
  | nil => rfl
  | cons c ys ih =>
    have hc : isCyr c = false := h c (by simp)
    simp [substCyrAux, hc, ih fun x hx => h x (by simp [hx])]

/-- The year denoted by four digit characters, as `%Y` reads them. -/
def yearVal (c1 c2 c3 c4 : Char) : Nat :=
  (c1.toNat - 48) * 1000 + (c2.toNat - 48) * 100 + (c3.toNat - 48) * 10 + (c4.toNat - 48)

/-- The localized month token for each month number. -/
def monthName : Nat → List Char
  | 1 => "января".toList
  | 2 => "февраля".toList
  | 3 => "марта".toList
  | 4 => "апреля".toList
  | 5 => "мая".toList
  | 6 => "июня".toList
  | 7 => "июля".toList
  | 8 => "августа".toList
  | 9 => "сентября".toList
  | 10 => "октября".toList
  | 11 => "ноября".toList
  | 12 => "декабря".toList
  | _ => []

theorem strptime_concrete (dayChars mChars : List Char) (d m : Nat) (c1 c2 c3 c4 : Char)
    (hpd : parseDay (dayChars ++ ' ' :: (mChars ++ ' ' :: [c1, c2, c3, c4]))
      = some (d, ' ' :: (mChars ++ ' ' :: [c1, c2, c3, c4])))
    (hpm : parseMonth (mChars ++ ' ' :: [c1, c2, c3, c4])
      = some (m, ' ' :: [c1, c2, c3, c4]))
    (hmne : mChars ≠ []) (hmsp : ∀ c ∈ mChars, isPySpace c = false)
    (hc1 : isDigitCh c1 = true) (hc2 : isDigitCh c2 = true)
    (hc3 : isDigitCh c3 = true) (hc4 : isDigitCh c4 = true)
    (hy : 1 ≤ yearVal c1 c2 c3 c4)
    (hdm : d ≤ daysInMonth m (yearVal c1 c2 c3 c4)) :
    strptimeDayMonthYear (dayChars ++ ' ' :: (mChars ++ ' ' :: [c1, c2, c3, c4]))
      = some ⟨yearVal c1 c2 c3 c4, m, d⟩ := by
  obtain ⟨mc, mcs, rfl⟩ : ∃ mc mcs, mChars = mc :: mcs := by
    cases mChars with
    | nil => exact absurd rfl hmne
    | cons mc mcs => exact ⟨mc, mcs, rfl⟩
  have hb1 : parseBlanks (' ' :: ((mc :: mcs) ++ (' ' :: [c1, c2, c3, c4])))
      = some ((mc :: mcs) ++ (' ' :: [c1, c2, c3, c4])) := by
    simp [parseBlanks, show isPySpace ' ' = true from rfl, List.dropWhile_cons,
      hmsp mc (by simp)]
  have hb2 : parseBlanks (' ' :: [c1, c2, c3, c4]) = some [c1, c2, c3, c4] := by
    simp [parseBlanks, show isPySpace ' ' = true from rfl, List.dropWhile_cons,
      digit_not_space c1 hc1]
  have hpy : parseYear [c1, c2, c3, c4] = some (yearVal c1 c2 c3 c4, []) := by
    simp [parseYear, hc1, hc2, hc3, hc4, yearVal]
  simp only [strptimeDayMonthYear, hpd, hb1, hpm, hb2, hpy, List.isEmpty_nil, if_true]
  rw [if_pos ⟨hy, hdm⟩]

theorem str_to_date_glue (dayChars tok mChars : List Char) (d m : Nat) (c1 c2 c3 c4 : Char)
    (hday : ∀ c ∈ dayChars, isCyr c = false)
    (htok : ∀ c ∈ tok, isCyr c = true)
    (htokne : tok ≠ [])
    (hmn : monthNum tok = some mChars)
    (hmne : mChars ≠ []) (hmsp : ∀ c ∈ mChars, isPySpace c = false)
    (hpd : parseDay (dayChars ++ ' ' :: (mChars ++ ' ' :: [c1, c2, c3, c4]))
      = some (d, ' ' :: (mChars ++ ' ' :: [c1, c2, c3, c4])))
    (hpm : parseMonth (mChars ++ ' ' :: [c1, c2, c3, c4])
      = some (m, ' ' :: [c1, c2, c3, c4]))
    (hc1 : isDigitCh c1 = true) (hc2 : isDigitCh c2 = true)
    (hc3 : isDigitCh c3 = true) (hc4 : isDigitCh c4 = true)
    (hy : 1 ≤ yearVal c1 c2 c3 c4)
    (hdm : d ≤ daysInMonth m (yearVal c1 c2 c3 c4)) :
    str_to_date (String.mk (dayChars ++ ' ' :: (tok ++ ' ' :: [c1, c2, c3, c4])))
      = some ⟨yearVal c1 c2 c3 c4, m, d⟩ := by
  have hdigits : ∀ c ∈ [c1, c2, c3, c4], isCyr c = false := by
    intro c hc
    simp only [List.mem_cons, List.not_mem_nil, or_false] at hc
    rcases hc with rfl | rfl | rfl | rfl
    · exact digit_not_cyr _ hc1
    · exact digit_not_cyr _ hc2
    · exact digit_not_cyr _ hc3
    · exact digit_not_cyr _ hc4
  have hpre : ∀ c ∈ dayChars ++ [' '], isCyr c = false := by
    intro c hc
    rcases List.mem_append.mp hc with h | h
    · exact hday c h
    · rw [List.mem_singleton.mp h]
      rfl
  have e1 : dayChars ++ ' ' :: (tok ++ ' ' :: [c1, c2, c3, c4])
      = (dayChars ++ [' ']) ++ (tok ++ ' ' :: [c1, c2, c3, c4]) := by
    simp
  have hruns : cyrRuns (dayChars ++ ' ' :: (tok ++ ' ' :: [c1, c2, c3, c4])) = [tok] := by
    unfold cyrRuns
    rw [e1, cyrRunsAux_nonCyr _ _ hpre, cyrRunsAux_run tok _ [] htok, List.append_nil,
      cyrRunsAux_emit ' ' _ _ (by rfl) (by simp [htokne]), List.reverse_reverse,
      cyrRunsAux_all_nonCyr _ hdigits]
  have hsub : substCyr mChars (dayChars ++ ' ' :: (tok ++ ' ' :: [c1, c2, c3, c4]))
      = dayChars ++ ' ' :: (mChars ++ ' ' :: [c1, c2, c3, c4]) := by
    unfold substCyr
    rw [e1, substCyrAux_nonCyr _ _ _ hpre, substCyrAux_cyr_false _ _ _ htok htokne]
    have hstep : substCyrAux mChars (' ' :: [c1, c2, c3, c4]) true
        = ' ' :: substCyrAux mChars [c1, c2, c3, c4] false := rfl
    rw [hstep, substCyrAux_all_nonCyr _ _ hdigits]
    simp
  have htl : (String.mk (dayChars ++ ' ' :: (tok ++ ' ' :: [c1, c2, c3, c4]))).toList
      = dayChars ++ ' ' :: (tok ++ ' ' :: [c1, c2, c3, c4]) := rfl
  unfold str_to_date
  rw [htl, hruns]
  simp only [List.flatten, List.append_nil, hmn]
  rw [hsub]
  exact strptime_concrete dayChars mChars d m c1 c2 c3 c4 hpd hpm hmne hmsp
    hc1 hc2 hc3 hc4 hy hdm

theorem daysInMonth_le_31 (m y : Nat) : daysInMonth m y ≤ 31 := by
  unfold daysInMonth
  split_ifs <;> omega

/-- C8: `str_to_date` maps `"15 марта 2024"` to 2024-03-15; it maps every
string `"<day> <month-name> <year>"` — day written without a leading zero,
month-name one of the twelve tokens, year four digits — denoting a valid
calendar date to that date; and it fails (raises) whenever the string
contains no recognizable month token, i.e. whenever the concatenation of
the string's Cyrillic-letter runs — the code's month recognizer — is not
one of the twelve tokens, in particular for every string with no Cyrillic
letters at all. -/
theorem str_to_date_spec :
    str_to_date "15 марта 2024" = some ⟨2024, 3, 15⟩ ∧
    (∀ (d m : Nat) (c1 c2 c3 c4 : Char),
      1 ≤ m → m ≤ 12 → 1 ≤ d →
      isDigitCh c1 = true → isDigitCh c2 = true →
      isDigitCh c3 = true → isDigitCh c4 = true →
      1 ≤ yearVal c1 c2 c3 c4 → d ≤ daysInMonth m (yearVal c1 c2 c3 c4) →
      str_to_date (String.mk ((Nat.repr d).toList ++ ' ' ::
          (monthName m ++ ' ' :: [c1, c2, c3, c4])))
        = some ⟨yearVal c1 c2 c3 c4, m, d⟩) ∧
    (∀ s : String, (∀ c ∈ s.toList, isCyr c = false) → str_to_date s = none) ∧
    (∀ s : String, monthNum (cyrRuns s.toList).flatten = none → str_to_date s = none) := by
  refine ⟨by decide, ?_, ?_, ?_⟩
  · intro d m c1 c2 c3 c4 hm1 hm2 hd1 hc1 hc2 hc3 hc4 hy hdm
    have hd31 : d ≤ 31 := le_trans hdm (daysInMonth_le_31 _ _)
    interval_cases m <;> interval_cases d <;>
      exact str_to_date_glue _ _ _ _ _ _ _ _ _ (by decide) (by decide) (by decide) rfl
        (by decide) (by decide) rfl rfl hc1 hc2 hc3 hc4 hy hdm
  · intro s hs
    unfold str_to_date
    rw [show cyrRuns s.toList = [] from cyrRunsAux_all_nonCyr _ hs]
    rfl
  · intro s h
    unfold str_to_date
    rw [h]

/-- C8 witness: the general shape at day 15, month 3, year digits 2 0 2 4,
and the no-month-token failure on `"15-03-2024"`. -/
theorem str_to_date_spec_witness :
    str_to_date (String.mk ((Nat.repr 15).toList ++ ' ' ::
        (monthName 3 ++ ' ' :: ['2', '0', '2', '4'])))
      = some ⟨yearVal '2' '0' '2' '4', 3, 15⟩ ∧
    str_to_date "15-03-2024" = none :=
  ⟨str_to_date_spec.2.1 15 3 '2' '0' '2' '4' (by decide) (by decide) (by decide)
      (by decide) (by decide) (by decide) (by decide) (by decide) (by decide),
   str_to_date_spec.2.2.1 "15-03-2024" (by decide)⟩
